import Mathlib

/-!
Verification of the OpenAPI spec editor and its integration-patching
pipeline of the cloud_foundry repository.

The Python sources embedded here are
`src/cloud_foundry/utils/openapi_editor.py` (class `OpenAPISpecEditor`),
`src/cloud_foundry/utils/aws_openapi_editor.py` (class
`AWSOpenAPISpecEditor`) and the gather-then-slice logic of
`src/cloud_foundry/pulumi/rest_api.py` (class `RestAPI`).

A YAML document is modelled by the inductive type `Val`; Python dicts are
insertion-ordered association lists (`List (String × Val)`), with lookup at
the first occurrence of a key and update in place (append at the end for a
fresh key), exactly the observable behaviour of a Python `dict`.
-/

set_option autoImplicit false

namespace CloudFoundry

/-- A YAML/JSON value as `yaml.safe_load` produces it: `null`, booleans,
integers, strings, sequences and mappings. Mappings are insertion-ordered
association lists, mirroring Python dicts. -/
inductive Val where
  | null
  | bool (b : Bool)
  | int (n : Int)
  | str (s : String)
  | list (xs : List Val)
  | dict (entries : List (String × Val))

/-- The root of an OpenAPI document: the entries of the top-level mapping
(`self.openapi_spec` in the Python code). -/
abbrev Dict := List (String × Val)

/-- `d.get(k)` on a Python dict: the value at the first occurrence of `k`,
`none` when the key is absent. -/
def dictGet : Dict → String → Option Val
  | [], _ => none
  | (k', v') :: rest, k => if k' = k then some v' else dictGet rest k

/-- `d[k] = v` on a Python dict: replace the value at the first occurrence
of `k` in place, or append the new pair at the end when `k` is absent. -/
def dictSet : Dict → String → Val → Dict
  | [], k, v => [(k, v)]
  | (k', v') :: rest, k, v =>
      if k' = k then (k, v) :: rest else (k', v') :: dictSet rest k v

/-- The keys of a mapping, in insertion order. -/
def dictKeys (d : Dict) : List String := d.map Prod.fst

mutual

/-- `OpenAPISpecEditor._deep_merge(source, destination)`: iterate the items
of `source` in order; every branch of the Python loop body stores one value
at the current key of `destination` (`mergedValue`). -/
def deepMergeD : Dict → Dict → Dict
  | [], dest => dest
  | (k, v) :: rest, dest =>
      deepMergeD rest (dictSet dest k (mergedValue (dictGet dest k) v))
termination_by source _ => sizeOf source
decreasing_by all_goals simp_wf <;> omega

/-- The value `_deep_merge` stores at one key: the recursive merge when both
sides hold a mapping; for an incoming sequence, an empty one overwrites, a
non-empty one extends an existing destination sequence and otherwise
replaces; any other incoming value replaces the destination value. -/
def mergedValue : Option Val → Val → Val
  | some (.dict t), .dict s => .dict (deepMergeD s t)
  | o, .list xs =>
      if xs.isEmpty then .list xs
      else
        match o with
        | some (.list ys) => .list (ys ++ xs)
        | _ => .list xs
  | _, v => v
termination_by _ v => sizeOf v
decreasing_by all_goals simp_wf <;> omega

end

/-- `OpenAPISpecEditor.__init__` on a list of already-parsed fragments: start
from the empty mapping and `_merge_spec` each fragment in turn, the fragment
being the merge's `source` and the accumulator its `destination`. -/
def initSpec (fragments : List Dict) : Dict :=
  fragments.foldl (fun acc f => deepMergeD f acc) []

/-- `OpenAPISpecEditor.merge_with` on an already-parsed document: deep merge
it into the stored spec, the new document winning conflicts. -/
def mergeWith (spec newSpec : Dict) : Dict := deepMergeD newSpec spec

/-- Python `str.lower()` on one character, for the ASCII range the HTTP
methods and file extensions of this code base live in. -/
def charLower (c : Char) : Char :=
  if 65 ≤ c.toNat ∧ c.toNat ≤ 90 then Char.ofNat (c.toNat + 32) else c

/-- Python `str.lower()`: lowercase every character. -/
def strLower (s : String) : String := ⟨s.data.map charLower⟩

/-- Python `str.endswith(suffix)`. -/
def strEndsWith (s suffix : String) : Bool := suffix.data.isSuffixOf s.data

/-- An error a spec-part walk can raise: `KeyError` with its message, or a
`TypeError`/`AttributeError` from treating a non-mapping node as a mapping. -/
inductive WalkErr where
  | keyError (msg : String)
  | typeError

/-- The message of the `KeyError` in `get_or_create_spec_part`:
the full key list joined with dots. -/
def partMsg (keys : List String) : String :=
  "Part '" ++ String.intercalate "." keys ++ "' does not exist in the spec."

/-- The loop of `OpenAPISpecEditor.get_or_create_spec_part`, walking `part`
along `keys`. When `create` is true a key entirely absent from the current
mapping is first bound to an empty mapping (`key not in part` is false for a
key bound to `None`, so nothing is created then); the walk then reads the
value and raises `KeyError` when it is `None` — absent, or bound to null.
Returns the updated subtree together with the part reached. A non-mapping
node hit mid-walk is Python's `TypeError`/`AttributeError`. -/
def getOrCreateWalk (create : Bool) (allKeys : List String) :
    Val → List String → Except WalkErr (Val × Val)
  | part, [] => .ok (part, part)
  | .dict d, k :: rest =>
      let d' := if create && (dictGet d k).isNone then dictSet d k (.dict []) else d
      match dictGet d' k with
      | none => .error (.keyError (partMsg allKeys))
      | some .null => .error (.keyError (partMsg allKeys))
      | some v =>
          match getOrCreateWalk create allKeys v rest with
          | .error e => .error e
          | .ok (v', final) => .ok (.dict (dictSet d' k v'), final)
  | _, _ :: _ => .error .typeError

/-- `OpenAPISpecEditor.get_or_create_spec_part(keys, create)` on the stored
spec: walk from the root mapping; the pair is the updated root and the part
the walk reached. -/
def getOrCreateSpecPart (spec : Dict) (keys : List String) (create : Bool) :
    Except WalkErr (Val × Val) :=
  getOrCreateWalk create keys (.dict spec) keys

/-- `OpenAPISpecEditor.get_spec_part(keys)`: the non-creating variant.
Python catches only `KeyError`, returning `None` for it; an
`AttributeError`/`TypeError` from a non-mapping node mid-walk propagates
to the caller. -/
def getSpecPart (spec : Dict) (keys : List String) :
    Except WalkErr (Option Val) :=
  match getOrCreateWalk false keys (.dict spec) keys with
  | .ok (_, part) => .ok (some part)
  | .error (.keyError _) => .ok none
  | .error .typeError => .error .typeError

/-- An error `get_operation`/`add_operation_attribute` can raise: the
`ValueError` with its message, or a `TypeError` from treating a non-mapping
node as a mapping. -/
inductive OpError where
  | valueError (msg : String)
  | typeError

/-- The `ValueError` message when the path key is absent. -/
def pathNotFoundMsg (path : String) : String :=
  "Path '" ++ path ++ "' not found in OpenAPI spec."

/-- The `ValueError` message when the (lowercased) method key is absent
under an existing path. -/
def methodNotFoundMsg (method path : String) : String :=
  "Method '" ++ method ++ "' not found for path '" ++ path ++ "' in OpenAPI spec."

/-- `OpenAPISpecEditor.get_operation(path, method)`: lowercase the method,
require `path` in `spec.get("paths", {})` (an absent `paths` key behaves as
the empty mapping), require the method under it, and return the stored
operation value unchanged. Membership or indexing on a non-mapping node is
Python's `TypeError`. -/
def getOperation (spec : Dict) (path method : String) : Except OpError Val :=
  let m := strLower method
  match dictGet spec "paths" with
  | none => .error (.valueError (pathNotFoundMsg path))
  | some (.dict ps) =>
      match dictGet ps path with
      | none => .error (.valueError (pathNotFoundMsg path))
      | some (.dict ops) =>
          match dictGet ops m with
          | none => .error (.valueError (methodNotFoundMsg m path))
          | some op => .ok op
      | some _ => .error .typeError
  | some _ => .error .typeError

/-- `OpenAPISpecEditor.add_operation_attribute(path, method, attribute,
value)`: locate the operation exactly as `get_operation` does and set
`operation[attribute] = value` in place. The in-place mutation of the
operation mapping is rendered as rebuilding the tree along the access path
(the tree has no internal aliasing). Setting an attribute on a non-mapping
operation is Python's `TypeError`. -/
def addOperationAttribute (spec : Dict) (path method attr : String) (v : Val) :
    Except OpError Dict :=
  let m := strLower method
  match dictGet spec "paths" with
  | none => .error (.valueError (pathNotFoundMsg path))
  | some (.dict ps) =>
      match dictGet ps path with
      | none => .error (.valueError (pathNotFoundMsg path))
      | some (.dict ops) =>
          match dictGet ops m with
          | none => .error (.valueError (methodNotFoundMsg m path))
          | some (.dict op) =>
              .ok (dictSet spec "paths"
                (.dict (dictSet ps path
                  (.dict (dictSet ops m (.dict (dictSet op attr v)))))))
          | some _ => .error .typeError
      | some _ => .error .typeError
  | some _ => .error .typeError

/-- A backend unit as the integration declarations reference it, with its
two resolved values: the function name and the invocation ARN. -/
structure FunctionRef where
  function_name : String
  invoke_arn : String

/-- An integration declaration `{"path": …, "method": …, "function": …}`. -/
structure Integration where
  path : String
  method : String
  function : FunctionRef

/-- A token-validator declaration `{"name": …, "function": …}`. -/
structure Validator where
  name : String
  function : FunctionRef

/-- The vendor-integration object `_add_integration` writes. -/
def integObj (arn : String) : Val :=
  .dict [("type", .str "aws_proxy"), ("uri", .str arn), ("httpMethod", .str "POST")]

/-- `AWSOpenAPISpecEditor._add_integration(path, method, function_name,
invoke_arn)`: set `x-function-name`, then the vendor-integration object, on
the operation at (path, method). -/
def addIntegration (spec : Dict) (path method fname arn : String) :
    Except OpError Dict := do
  let s₁ ← addOperationAttribute spec path method "x-function-name" (.str fname)
  addOperationAttribute s₁ path method "x-amazon-apigateway-integration" (integObj arn)

/-- `AWSOpenAPISpecEditor.process_integrations(integrations, invoke_arns)`:
`zip` the declarations with the resolved invoke ARNs (pairwise, in
declaration order, truncating at the shorter list as Python `zip` does) and
`_add_integration` each pair, the function name taken from the declaration's
backend reference. -/
def processIntegrations (spec : Dict) (integrations : List Integration)
    (invokeArns : List String) : Except OpError Dict :=
  (integrations.zip invokeArns).foldlM
    (fun sp p => addIntegration sp p.1.path p.1.method p.1.function.function_name p.2)
    spec

/-- Python truthiness of a YAML value: `None`, `False`, `0`, `""`, `[]` and
`{}` are falsy. -/
def truthy : Val → Bool
  | .null => false
  | .bool b => b
  | .int n => n != 0
  | .str s => !s.isEmpty
  | .list xs => !xs.isEmpty
  | .dict d => !d.isEmpty

/-- One `for _, node in d.items()` loop of `get_function_names`: read
`node.get("x-function-name")` and append the value when truthy, in
insertion order. A non-mapping `node` is Python's `AttributeError` from
`.get` on it. -/
def collectXfn : List (String × Val) → Except WalkErr (List Val)
  | [] => .ok []
  | (_, node) :: rest =>
      match node with
      | .dict oe =>
          match collectXfn rest with
          | .ok tail =>
              let fn := (dictGet oe "x-function-name").getD .null
              .ok (if truthy fn then fn :: tail else tail)
          | .error e => .error e
      | _ => .error .typeError

/-- The outer loop of `get_function_names` over `paths`: for each path
entry iterate its methods mapping. A non-mapping path entry is Python's
`AttributeError` from `.items()` on it. -/
def pathsXfn : List (String × Val) → Except WalkErr (List Val)
  | [] => .ok []
  | (_, methods) :: rest =>
      match methods with
      | .dict ms =>
          match collectXfn ms with
          | .ok names =>
              match pathsXfn rest with
              | .ok tail => .ok (names ++ tail)
              | .error e => .error e
          | .error e => .error e
      | _ => .error .typeError

/-- `AWSOpenAPISpecEditor.get_function_names()`: the truthy
`x-function-name` values under `paths.*.*`, then those under
`components.securitySchemes.*`, each group in insertion order; a falsy or
absent `paths`/`securitySchemes` part contributes nothing (`if paths:`
skips the loop), while a truthy non-mapping part — or any non-mapping
node inside the loops — is the `AttributeError` Python raises there. The
Python list holds raw values, so the result is a list of `Val`. -/
def getFunctionNames (spec : Dict) : Except WalkErr (List Val) := do
  let pathsPart ← getSpecPart spec ["paths"]
  let fromPaths ←
    (match pathsPart with
     | some p =>
         if truthy p then
           match p with
           | .dict ps => pathsXfn ps
           | _ => (.error .typeError : Except WalkErr (List Val))
         else .ok []
     | none => .ok [])
  let schemesPart ← getSpecPart spec ["components", "securitySchemes"]
  let fromSchemes ←
    (match schemesPart with
     | some p =>
         if truthy p then
           match p with
           | .dict ss => collectXfn ss
           | _ => (.error .typeError : Except WalkErr (List Val))
         else .ok []
     | none => .ok [])
  .ok (fromPaths ++ fromSchemes)

mutual

/-- The recursive `remove_matching_keys` of
`remove_attributes_by_pattern`: in a mapping drop every key matched by the
compiled pattern and recurse into the remaining values, in a sequence
recurse into every element, leave every other value unchanged. The compiled
pattern's `match` test is the abstract `m`. -/
def removeMatching (m : String → Bool) : Val → Val
  | .dict d => .dict (removeMatchingEntries m d)
  | .list xs => .list (removeMatchingItems m xs)
  | v => v
termination_by v => sizeOf v
decreasing_by all_goals simp_wf <;> omega

/-- The dict comprehension of `remove_matching_keys`: keep the entries whose
key the pattern does not match, recursing into their values, in order. -/
def removeMatchingEntries (m : String → Bool) :
    List (String × Val) → List (String × Val)
  | [] => []
  | (k, v) :: rest =>
      if m k then removeMatchingEntries m rest
      else (k, removeMatching m v) :: removeMatchingEntries m rest
termination_by l => sizeOf l
decreasing_by all_goals simp_wf <;> omega

/-- The list comprehension of `remove_matching_keys`. -/
def removeMatchingItems (m : String → Bool) : List Val → List Val
  | [] => []
  | v :: rest => removeMatching m v :: removeMatchingItems m rest
termination_by l => sizeOf l
decreasing_by all_goals simp_wf <;> omega

end

/-- `OpenAPISpecEditor.remove_attributes_by_pattern(pattern)`: build the new
tree from the stored root mapping and replace the stored tree with it. -/
def removeAttributesByPattern (m : String → Bool) (spec : Dict) : Dict :=
  removeMatchingEntries m spec

/-- Python `re.match(p, key)` for a pattern `p` without regex
metacharacters (such as the pattern "x-"): the match is anchored at the
start of `key`, so it succeeds exactly when `p` is a prefix of `key`. -/
def matchLit (p s : String) : Bool :=
  p.data.isPrefixOf s.data

/-- `integration_arns` of `RestAPI.__init__`. -/
def integrationArns (ints : List Integration) : List String :=
  ints.map fun i => i.function.invoke_arn

/-- `integration_function_names` of `RestAPI.__init__`. -/
def integrationFunctionNames (ints : List Integration) : List String :=
  ints.map fun i => i.function.function_name

/-- `token_validator_arns` of `RestAPI.__init__`. -/
def validatorArns (vs : List Validator) : List String :=
  vs.map fun v => v.function.invoke_arn

/-- `token_validator_function_names` of `RestAPI.__init__`. -/
def validatorFunctionNames (vs : List Validator) : List String :=
  vs.map fun v => v.function.function_name

/-- `all_arns = integration_arns + token_validator_arns + [gateway_role.arn]`
of `RestAPI.__init__`: the single flattened list whose resolution is
awaited. -/
def allArns (ints : List Integration) (vs : List Validator) (roleArn : String) :
    List String :=
  integrationArns ints ++ validatorArns vs ++ [roleArn]

/-- `all_function_names = integration_function_names +
token_validator_function_names` of `RestAPI.__init__`. -/
def allFunctionNames (ints : List Integration) (vs : List Validator) :
    List String :=
  integrationFunctionNames ints ++ validatorFunctionNames vs

/-- `invoke_arns[: len(self.integrations)]` passed by `RestAPI._build` to
`process_integrations`. -/
def buildIntegrationArns (nInts : Nat) (invokeArns : List String) : List String :=
  invokeArns.take nInts

/-- `function_names[: len(self.integrations)]` passed by `RestAPI._build` to
`process_integrations`. -/
def buildIntegrationNames (nInts : Nat) (functionNames : List String) : List String :=
  functionNames.take nInts

/-- `invoke_arns[len(self.integrations) :]` passed by `RestAPI._build` to
`process_token_validators`. -/
def buildValidatorArns (nInts : Nat) (invokeArns : List String) : List String :=
  invokeArns.drop nInts

/-- `function_names[len(self.integrations) : -1]` passed by `RestAPI._build`
to `process_token_validators`: Python's `[n : -1]` slice is drop `n`, then
drop the final element. -/
def buildValidatorNames (nInts : Nat) (functionNames : List String) : List String :=
  (functionNames.drop nInts).dropLast

/-- `invoke_arns[-1]` passed by `RestAPI._build` to `process_content`
(`none` on an empty list, where Python raises `IndexError`). -/
def buildContentArn (invokeArns : List String) : Option String :=
  invokeArns.getLast?

/-- An error `_merge_spec`/`_load_openapi_spec` can raise: the parser's
error on malformed text, the `ValueError` for an unsupported file extension,
and the `AttributeError` `_deep_merge` raises when the parsed payload is not
a mapping (`source.items()` on a non-dict). -/
inductive LoadErr where
  | parseError
  | unsupportedFormat
  | attributeError

/-- `OpenAPISpecEditor._load_openapi_spec()`: parse the named file as YAML
for a `.yaml`/`.yml` name, as JSON for a `.json` name, and raise the
unsupported-format `ValueError` otherwise. The parsers and the file system
are abstract parameters; a parser returns `none` on malformed text. -/
def loadOpenapiSpec (parseYaml parseJson : String → Option Val)
    (contents : String → String) (fileName : String) : Except LoadErr Val :=
  if strEndsWith fileName ".yaml" || strEndsWith fileName ".yml" then
    match parseYaml (contents fileName) with
    | some v => .ok v
    | none => .error .parseError
  else if strEndsWith fileName ".json" then
    match parseJson (contents fileName) with
    | some v => .ok v
    | none => .error .parseError
  else .error .unsupportedFormat

/-- `OpenAPISpecEditor._merge_spec(spec)`: when `spec` names an existing
file AND ends in `.yaml`/`.yml`, load it through `_load_openapi_spec`;
otherwise treat the string itself as YAML content. The parsed document is
deep-merged into the current spec; a non-mapping parse result makes
`_deep_merge` raise `AttributeError`. -/
def mergeSpecStep (isFile : String → Bool)
    (parseYaml parseJson : String → Option Val) (contents : String → String)
    (cur : Dict) (spec : String) : Except LoadErr Dict :=
  if isFile spec && (strEndsWith spec ".yaml" || strEndsWith spec ".yml") then
    match loadOpenapiSpec parseYaml parseJson contents spec with
    | .error e => .error e
    | .ok (.dict d) => .ok (deepMergeD d cur)
    | .ok _ => .error .attributeError
  else
    match parseYaml spec with
    | none => .error .parseError
    | some (.dict d) => .ok (deepMergeD d cur)
    | some _ => .error .attributeError

/-- The entries of the operation mapping stored at
`paths[path][method.lower()]`, when the walk meets mappings all the way
down; the coordinate at which `_add_integration` patches. -/
def opEntriesAt (spec : Dict) (path method : String) : Option Dict :=
  match dictGet spec "paths" with
  | some (.dict ps) =>
      match dictGet ps path with
      | some (.dict ops) =>
          match dictGet ops (strLower method) with
          | some (.dict op) => some op
          | _ => none
      | _ => none
  | _ => none

/-- The coordinate an integration declaration names: its path and its
lowercased method. -/
def coord (i : Integration) : String × String := (i.path, strLower i.method)

/-- A scalar (leaf) value: neither a mapping nor a sequence. -/
def isScalar : Val → Bool
  | .null | .bool _ | .int _ | .str _ => true
  | .list _ | .dict _ => false

/-- The `x-function-name` value one operation or scheme mapping
contributes to `get_function_names`: its value when present and truthy,
nothing otherwise. -/
def xfnTruthy (oe : Dict) : Option Val :=
  let fn := (dictGet oe "x-function-name").getD .null
  if truthy fn then some fn else none

/-- Whether a value is a mapping. -/
def isDict : Val → Bool
  | .dict _ => true
  | _ => false

/-- The data model's shape for one level of operations or schemes: every
entry's value is a mapping. -/
def opsShaped (d : Dict) : Bool :=
  d.all fun kv => isDict kv.2

/-- The data model's shape for the `paths` section: every path entry is a
mapping of operations, each of which is a mapping. -/
def pathsShaped (ps : Dict) : Bool :=
  ps.all fun kv =>
    match kv.2 with
    | .dict ms => opsShaped ms
    | _ => false

/-! ### Concrete inputs used by the claims' witnesses and counterexamples -/

/-- A spec with the two operations of the spec's wiring example. -/
def exWireSpec : Dict :=
  [("paths", .dict [("/greet", .dict [("get", .dict [])]),
                    ("/token", .dict [("post", .dict [])])])]

/-- The two integration declarations of the spec's wiring example. -/
def exWireInts : List Integration :=
  [⟨"/greet", "get", ⟨"name-a", "uriA"⟩⟩, ⟨"/token", "post", ⟨"name-b", "uriB"⟩⟩]

/-- A spec holding one operation, at `/a` `get`. -/
def exDupSpec : Dict := [("paths", .dict [("/a", .dict [("get", .dict [])])])]

/-- Two integration declarations naming the same operation with different
backend functions. -/
def exDupInts : List Integration :=
  [⟨"/a", "get", ⟨"n1", "u1"⟩⟩, ⟨"/a", "get", ⟨"n2", "u2"⟩⟩]

/-- One integration declaration, for the gather-then-slice run. -/
def exSliceInts : List Integration := [⟨"/greet", "get", ⟨"ifn", "i-arn"⟩⟩]

/-- One token-validator declaration, for the gather-then-slice run. -/
def exSliceVals : List Validator := [⟨"auth", ⟨"vfn", "v-arn"⟩⟩]

/-- A spec whose one operation carries an empty-string `x-function-name`. -/
def exEmptyNameSpec : Dict :=
  [("paths", .dict [("/p", .dict [("get", .dict
      [("x-function-name", .str "")])])])]

/-- A spec whose `paths` mapping holds a non-mapping path value, on which
`get_function_names` raises `AttributeError` (`"s".items()`). -/
def exCrashSpec : Dict :=
  [("paths", .dict [("p1", .str "s")]),
   ("components", .dict [("securitySchemes", .dict [])])]

/-- A spec carrying an integration patch and an authorizer patch. -/
def exNamesSpec : Dict :=
  [("paths", .dict [("/p", .dict
      [("get", .dict [("x-function-name", .str "f1")]),
       ("post", .dict [])])]),
   ("components", .dict [("securitySchemes", .dict
      [("auth", .dict [("x-function-name", .str "f2")])])])]

/-! ### Lemmas about the dictionary operations and the deep merge -/

@[simp] theorem dictGet_nil (k : String) : dictGet [] k = none := rfl

@[simp] theorem dictGet_cons (k' k : String) (v' : Val) (rest : Dict) :
    dictGet ((k', v') :: rest) k =
      if k' = k then some v' else dictGet rest k := rfl

@[simp] theorem dictSet_nil (k : String) (v : Val) : dictSet [] k v = [(k, v)] := rfl

@[simp] theorem dictSet_cons (k' k : String) (v' v : Val) (rest : Dict) :
    dictSet ((k', v') :: rest) k v =
      if k' = k then (k, v) :: rest else (k', v') :: dictSet rest k v := rfl

theorem dictGet_dictSet_self (d : Dict) (k : String) (v : Val) :
    dictGet (dictSet d k v) k = some v := by
  induction d with
  | nil => simp
  | cons hd tl ih =>
      obtain ⟨k', v'⟩ := hd
      by_cases h : k' = k <;> simp [h, ih]

theorem dictGet_dictSet_ne (d : Dict) (k k' : String) (v : Val) (h : k' ≠ k) :
    dictGet (dictSet d k v) k' = dictGet d k' := by
  induction d with
  | nil => simp [Ne.symm h]
  | cons hd tl ih =>
      obtain ⟨k₀, v₀⟩ := hd
      by_cases h₀ : k₀ = k
      · subst h₀
        simp [Ne.symm h]
      · by_cases h₁ : k₀ = k' <;> simp [h₀, h₁, ih, h]

theorem dictSet_dictSet_same (d : Dict) (k : String) (v₁ v₂ : Val) :
    dictSet (dictSet d k v₁) k v₂ = dictSet d k v₂ := by
  induction d with
  | nil => simp
  | cons hd tl ih =>
      obtain ⟨k₀, v₀⟩ := hd
      by_cases h : k₀ = k <;> simp [h, ih]

theorem isSome_dictGet_dictSet (d : Dict) (k k' : String) (v : Val)
    (h : (dictGet d k').isSome) : (dictGet (dictSet d k v) k').isSome := by
  by_cases hk : k' = k
  · subst hk; simp [dictGet_dictSet_self]
  · rwa [dictGet_dictSet_ne d k k' v hk]


theorem deepMergeD_nil (dest : Dict) : deepMergeD [] dest = dest := by
  simp [deepMergeD]

theorem deepMergeD_cons (k : String) (v : Val) (rest dest : Dict) :
    deepMergeD ((k, v) :: rest) dest =
      deepMergeD rest (dictSet dest k (mergedValue (dictGet dest k) v)) := by
  simp [deepMergeD]

/-- A key the source does not mention keeps its destination value. -/
theorem dictGet_deepMergeD_not_mem (source : Dict) (dest : Dict) (k : String)
    (h : k ∉ dictKeys source) :
    dictGet (deepMergeD source dest) k = dictGet dest k := by
  induction source generalizing dest with
  | nil => simp [deepMergeD_nil]
  | cons hd tl ih =>
      obtain ⟨k₀, v₀⟩ := hd
      simp only [dictKeys, List.map_cons, List.mem_cons, not_or] at h
      rw [deepMergeD_cons, ih _ (by
        simpa [dictKeys] using h.2)]
      exact dictGet_dictSet_ne _ _ _ _ (fun he => h.1 (by simp [he]))

/-- A key the source does mention ends at the value `mergedValue` computes
from the original destination value, provided the source has no duplicate
keys (a Python dict never does). -/
theorem dictGet_deepMergeD_mem (source : Dict) (dest : Dict) (k : String)
    (v : Val) (hnd : (dictKeys source).Nodup) (h : dictGet source k = some v) :
    dictGet (deepMergeD source dest) k =
      some (mergedValue (dictGet dest k) v) := by
  induction source generalizing dest with
  | nil => simp at h
  | cons hd tl ih =>
      obtain ⟨k₀, v₀⟩ := hd
      simp only [dictKeys, List.map_cons, List.nodup_cons] at hnd
      rw [deepMergeD_cons]
      by_cases hk : k₀ = k
      · subst hk
        simp only [dictGet_cons, if_pos rfl] at h
        obtain rfl : v₀ = v := Option.some.inj h
        rw [dictGet_deepMergeD_not_mem _ _ _ (by simpa [dictKeys] using hnd.1)]
        exact dictGet_dictSet_self _ _ _
      · simp only [dictGet_cons, if_neg hk] at h
        rw [ih _ hnd.2 h, dictGet_dictSet_ne _ _ _ _ (fun he => hk he.symm)]

/-- Merging never loses a key of the destination's top-level mapping. -/
theorem isSome_dictGet_deepMergeD (source : Dict) (dest : Dict) (k : String)
    (h : (dictGet dest k).isSome) :
    (dictGet (deepMergeD source dest) k).isSome := by
  induction source generalizing dest with
  | nil => simpa [deepMergeD_nil]
  | cons hd tl ih =>
      obtain ⟨k₀, v₀⟩ := hd
      rw [deepMergeD_cons]
      exact ih _ (isSome_dictGet_dictSet _ _ _ _ h)

/-! ### The effect and frame of the integration patcher -/

/-- Inversion for `opEntriesAt`: it yields entries exactly when mappings
stand at `paths`, the path and the lowercased method. -/
theorem opEntriesAt_eq_some (spec : Dict) (p m : String) (op : Dict) :
    opEntriesAt spec p m = some op ↔
      ∃ ps ops, dictGet spec "paths" = some (.dict ps) ∧
        dictGet ps p = some (.dict ops) ∧
        dictGet ops (strLower m) = some (.dict op) := by
  constructor
  · intro h
    unfold opEntriesAt at h
    split at h
    · split at h
      · split at h
        · exact ⟨_, _, by assumption, by assumption, by
            simp_all⟩
        · simp at h
      · simp at h
    · simp at h
  · rintro ⟨ps, ops, hps, hp, hm⟩
    simp only [opEntriesAt, hps, hp, hm]

/-- `add_operation_attribute` on an existing operation: it succeeds, sets
the attribute at the operation's coordinate, and leaves the operation at
every other (path, lowercased-method) coordinate unchanged. -/
theorem addOperationAttribute_spec (spec : Dict) (p m attr : String) (v : Val)
    (op : Dict) (h : opEntriesAt spec p m = some op) :
    ∃ spec', addOperationAttribute spec p m attr v = .ok spec' ∧
      opEntriesAt spec' p m = some (dictSet op attr v) ∧
      ∀ p' m', (p', strLower m') ≠ (p, strLower m) →
        opEntriesAt spec' p' m' = opEntriesAt spec p' m' := by
  obtain ⟨ps, ops, hps, hp, hm⟩ := (opEntriesAt_eq_some spec p m op).1 h
  refine ⟨dictSet spec "paths" (.dict (dictSet ps p
      (.dict (dictSet ops (strLower m) (.dict (dictSet op attr v)))))),
    ?_, ?_, ?_⟩
  · simp only [addOperationAttribute, hps, hp, hm]
  · exact (opEntriesAt_eq_some _ _ _ _).2
      ⟨_, _, dictGet_dictSet_self _ _ _, dictGet_dictSet_self _ _ _,
        dictGet_dictSet_self _ _ _⟩
  · intro p' m' hne
    by_cases hpp : p' = p
    · subst hpp
      have hmm : strLower m' ≠ strLower m := fun he => hne (by rw [he])
      simp only [opEntriesAt, hps, dictGet_dictSet_self, hp,
        dictGet_dictSet_ne ops (strLower m) (strLower m')
          (Val.dict (dictSet op attr v)) hmm]
    · simp only [opEntriesAt, hps, dictGet_dictSet_self,
        dictGet_dictSet_ne ps p p'
          (Val.dict (dictSet ops (strLower m) (Val.dict (dictSet op attr v)))) hpp]

/-- `_add_integration` on an existing operation: it succeeds, the operation
ends with `x-function-name` and the vendor-integration object set, and every
other coordinate is untouched. -/
theorem addIntegration_spec (spec : Dict) (p m fname arn : String)
    (op : Dict) (h : opEntriesAt spec p m = some op) :
    ∃ spec', addIntegration spec p m fname arn = .ok spec' ∧
      opEntriesAt spec' p m = some
        (dictSet (dictSet op "x-function-name" (.str fname))
          "x-amazon-apigateway-integration" (integObj arn)) ∧
      ∀ p' m', (p', strLower m') ≠ (p, strLower m) →
        opEntriesAt spec' p' m' = opEntriesAt spec p' m' := by
  obtain ⟨s₁, h₁, hop₁, hfr₁⟩ :=
    addOperationAttribute_spec spec p m "x-function-name" (.str fname) op h
  obtain ⟨s₂, h₂, hop₂, hfr₂⟩ :=
    addOperationAttribute_spec s₁ p m "x-amazon-apigateway-integration"
      (integObj arn) _ hop₁
  refine ⟨s₂, ?_, hop₂, ?_⟩
  · simp only [addIntegration, h₁]
    exact h₂
  · intro p' m' hne
    rw [hfr₂ p' m' hne, hfr₁ p' m' hne]

/-- `process_integrations` over declarations whose coordinates are pairwise
distinct and all name existing operations, with the invoke ARNs resolved in
declaration order: the run succeeds, each declaration's operation ends
patched with that declaration's function name and invoke ARN, and every
coordinate outside the declarations is untouched. -/
theorem processIntegrations_spec (ints : List Integration) (spec : Dict)
    (hex : ∀ i ∈ ints, (opEntriesAt spec i.path i.method).isSome)
    (hnd : (ints.map coord).Nodup) :
    ∃ spec',
      processIntegrations spec ints (ints.map fun i => i.function.invoke_arn) =
        .ok spec' ∧
      (∀ i ∈ ints, ∃ op, opEntriesAt spec i.path i.method = some op ∧
        opEntriesAt spec' i.path i.method = some
          (dictSet (dictSet op "x-function-name" (.str i.function.function_name))
            "x-amazon-apigateway-integration" (integObj i.function.invoke_arn))) ∧
      (∀ p m, (p, strLower m) ∉ ints.map coord →
        opEntriesAt spec' p m = opEntriesAt spec p m) := by
  induction ints generalizing spec with
  | nil =>
      exact ⟨spec, rfl, by simp, fun p m _ => rfl⟩
  | cons i rest ih =>
      simp only [List.map_cons, List.nodup_cons] at hnd
      obtain ⟨op₀, hop₀⟩ := Option.isSome_iff_exists.1 (hex i (by simp))
      obtain ⟨s₁, h₁, hpatched₁, hfr₁⟩ :=
        addIntegration_spec spec i.path i.method i.function.function_name
          i.function.invoke_arn op₀ hop₀
      have hcoordne : ∀ i' ∈ rest, (i'.path, strLower i'.method) ≠
          (i.path, strLower i.method) := by
        intro i' hi' he
        exact hnd.1 (by
          simp only [List.mem_map]
          exact ⟨i', hi', by simpa [coord] using he⟩)
      have hex₁ : ∀ i' ∈ rest, (opEntriesAt s₁ i'.path i'.method).isSome := by
        intro i' hi'
        rw [hfr₁ i'.path i'.method (hcoordne i' hi')]
        exact hex i' (by simp [hi'])
      obtain ⟨s₂, h₂, hpost₂, hfr₂⟩ := ih s₁ hex₁ hnd.2
      have hstep : processIntegrations spec (i :: rest)
            ((i :: rest).map fun j => j.function.invoke_arn) =
          (addIntegration spec i.path i.method i.function.function_name
              i.function.invoke_arn) >>= fun s =>
            processIntegrations s rest (rest.map fun j => j.function.invoke_arn) :=
        rfl
      refine ⟨s₂, ?_, ?_, ?_⟩
      · rw [hstep, h₁]
        exact h₂
      · intro i' hi'
        rcases List.mem_cons.1 hi' with rfl | hi'
        · refine ⟨op₀, hop₀, ?_⟩
          rw [hfr₂ i'.path i'.method (by
            intro hmem
            obtain ⟨j, hj, hje⟩ := List.mem_map.1 hmem
            exact hcoordne j hj (by simpa [coord] using hje))]
          exact hpatched₁
        · obtain ⟨op, hbase, hfin⟩ := hpost₂ i' hi'
          refine ⟨op, ?_, hfin⟩
          rwa [hfr₁ i'.path i'.method (hcoordne i' hi')] at hbase
      · intro p m hmem
        simp only [List.map_cons, List.mem_cons, not_or] at hmem
        rw [hfr₂ p m hmem.2, hfr₁ p m hmem.1]

/-- `getD` through a `map`, below the length. -/
theorem getD_map_of_lt {α β : Type} (l : List α) (f : α → β) (j : Nat)
    (d : β) (hj : j < l.length) :
    (l.map f).getD j d = f (l.get ⟨j, hj⟩) := by
  induction l generalizing j with
  | nil => simp at hj
  | cons hd tl ih =>
      cases j with
      | zero => rfl
      | succ j => exact ih j (by simpa using hj)

/-- What `_deep_merge` stores at a key whose incoming value is a sequence:
an empty sequence overwrites, a non-empty one extends an existing
destination sequence, anything else is replaced. -/
theorem mergedValue_list (o : Option Val) (xs : List Val) :
    mergedValue o (.list xs) =
      if xs.isEmpty then .list []
      else
        match o with
        | some (.list ys) => Val.list (ys ++ xs)
        | _ => Val.list xs := by
  rcases o with _ | v
  · cases xs <;> simp [mergedValue]
  · cases v <;> cases xs <;> simp [mergedValue]

/-- What `_deep_merge` stores at a key whose incoming value is a scalar:
the incoming value, whatever the destination held. -/
theorem mergedValue_scalar (o : Option Val) (v : Val) (hv : isScalar v) :
    mergedValue o v = v := by
  rcases o with _ | w
  · cases v <;> simp_all [mergedValue, isScalar]
  · cases w <;> cases v <;> simp_all [mergedValue, isScalar]

/-- What `_deep_merge` stores at a key where both sides hold a mapping:
the recursive merge. -/
theorem mergedValue_dict (t s : Dict) :
    mergedValue (some (.dict t)) (.dict s) = .dict (deepMergeD s t) := by
  simp [mergedValue]

/-! ### The claims -/

/-- C1, counterexample. The claim quantifies over every list of integration
declarations; two declarations naming the same (path, method) coordinate
with different backend functions refute it: after `process_integrations`,
the operation at `/a` `get` carries `x-function-name` `"n2"`, not the
0-th resolved function name `"n1"` as the claim demands at index 0. -/
theorem C1_integration_wiring_cex :
    (((processIntegrations exDupSpec exDupInts
          (exDupInts.map fun i => i.function.invoke_arn)).toOption.bind
        (fun s => opEntriesAt s "/a" "get")).bind
      (fun op => dictGet op "x-function-name")) = some (.str "n2") ∧
    (exDupInts.map fun i => i.function.function_name).getD 0 "" = "n1" ∧
    Val.str "n2" ≠ Val.str "n1" := by
  refine ⟨rfl, rfl, ?_⟩
  intro h
  injection h with h'
  exact absurd h' (by decide)

/-- C1 (amended): for declarations whose (path, lowercased-method)
coordinates are pairwise distinct and each name an operation present in the
spec, and positionally aligned lists of resolved invocation identifiers and
resolved function names, `process_integrations` succeeds and for each index
j the operation at (declarations[j].path, declarations[j].method) carries
`x-function-name` equal to the j-th resolved function name and the
vendor-integration object `{type: "aws_proxy", uri: j-th resolved
invocation identifier, httpMethod: "POST"}`; declarations are consumed
pairwise in declaration order. -/
theorem C1_integration_wiring (spec : Dict) (ints : List Integration)
    (invokeIds names : List String)
    (hids : invokeIds = ints.map fun i => i.function.invoke_arn)
    (hnames : names = ints.map fun i => i.function.function_name)
    (hex : ∀ i ∈ ints, (opEntriesAt spec i.path i.method).isSome)
    (hnd : (ints.map coord).Nodup) :
    ∃ spec', processIntegrations spec ints invokeIds = .ok spec' ∧
      ∀ j (hj : j < ints.length),
        ∃ op, opEntriesAt spec' (ints.get ⟨j, hj⟩).path
            (ints.get ⟨j, hj⟩).method = some op ∧
          dictGet op "x-function-name" = some (.str (names.getD j "")) ∧
          dictGet op "x-amazon-apigateway-integration" =
            some (integObj (invokeIds.getD j "")) := by
  subst hids hnames
  obtain ⟨spec', hrun, hpost, _⟩ := processIntegrations_spec ints spec hex hnd
  refine ⟨spec', hrun, ?_⟩
  intro j hj
  obtain ⟨op, _, hfin⟩ := hpost (ints.get ⟨j, hj⟩) (List.get_mem ints j hj)
  refine ⟨_, hfin, ?_, ?_⟩
  · rw [dictGet_dictSet_ne _ _ _ _ (by decide), dictGet_dictSet_self,
      getD_map_of_lt _ _ _ _ hj]
  · rw [dictGet_dictSet_self, getD_map_of_lt _ _ _ _ hj]

/-- C1, witness: the spec's own wiring example, two integrations on
distinct coordinates. -/
theorem C1_integration_wiring_witness :
    (∀ i ∈ exWireInts, (opEntriesAt exWireSpec i.path i.method).isSome) ∧
    (exWireInts.map coord).Nodup ∧
    (∃ spec', processIntegrations exWireSpec exWireInts
        (exWireInts.map fun i => i.function.invoke_arn) = .ok spec' ∧
      ∀ j (hj : j < exWireInts.length),
        ∃ op, opEntriesAt spec' (exWireInts.get ⟨j, hj⟩).path
            (exWireInts.get ⟨j, hj⟩).method = some op ∧
          dictGet op "x-function-name" =
            some (.str ((exWireInts.map fun i => i.function.function_name).getD j "")) ∧
          dictGet op "x-amazon-apigateway-integration" =
            some (integObj ((exWireInts.map fun i => i.function.invoke_arn).getD j ""))) :=
  ⟨by decide, by decide,
    C1_integration_wiring exWireSpec exWireInts _ _ rfl rfl
      (by decide) (by decide)⟩

/-- C2, code-bug evidence. The general part characterizes `_build`'s
slices of the flattened waited-on lists: the integration steps receive
exactly the integration ARNs and names and the content step the gateway
role ARN, but the validator name slice `function_names[len(integrations):-1]`
drops the final validator's function name (`all_function_names` carries no
trailing role entry, yet the slice still cuts one element off), so whenever
at least one validator is declared the names passed to
`process_token_validators` are one short. The concrete part runs the
failing input — one integration, one token validator — where the validator
name list handed over is empty instead of `["vfn"]`. -/
theorem C2_gather_slice :
    (∀ (ints : List Integration) (vs : List Validator) (roleArn : String),
      buildIntegrationArns ints.length (allArns ints vs roleArn) =
        integrationArns ints ∧
      buildIntegrationNames ints.length (allFunctionNames ints vs) =
        integrationFunctionNames ints ∧
      buildValidatorArns ints.length (allArns ints vs roleArn) =
        validatorArns vs ++ [roleArn] ∧
      buildValidatorNames ints.length (allFunctionNames ints vs) =
        (validatorFunctionNames vs).dropLast ∧
      buildContentArn (allArns ints vs roleArn) = some roleArn ∧
      (vs ≠ [] →
        (buildValidatorNames ints.length (allFunctionNames ints vs)).length <
          vs.length)) ∧
    buildValidatorNames exSliceInts.length
        (allFunctionNames exSliceInts exSliceVals) = [] ∧
    validatorFunctionNames exSliceVals = ["vfn"] := by
  refine ⟨?_, rfl, rfl⟩
  intro ints vs roleArn
  have hlenA : (integrationArns ints).length = ints.length :=
    List.length_map _ _
  have hlenN : (integrationFunctionNames ints).length = ints.length :=
    List.length_map _ _
  refine ⟨?_, ?_, ?_, ?_, ?_, ?_⟩
  · rw [buildIntegrationArns, allArns, List.append_assoc, ← hlenA,
      List.take_left]
  · rw [buildIntegrationNames, allFunctionNames, ← hlenN, List.take_left]
  · rw [buildValidatorArns, allArns, List.append_assoc, ← hlenA,
      List.drop_left]
  · rw [buildValidatorNames, allFunctionNames, ← hlenN, List.drop_left]
  · rw [buildContentArn, allArns, List.getLast?_concat]
  · intro hvs
    rw [buildValidatorNames, allFunctionNames, ← hlenN, List.drop_left,
      List.length_dropLast, validatorFunctionNames, List.length_map]
    have : vs.length ≠ 0 := fun h => hvs (List.length_eq_zero.1 h)
    omega

/-- C3: in a deep merge, for every key whose incoming value is a sequence,
an empty incoming sequence replaces the destination value, a non-empty one
is appended to an existing destination sequence and otherwise replaces; in
particular merging `{tags: ["a"]}` then `{tags: ["b"]}` yields
`tags == ["a", "b"]`, and subsequently merging `{tags: []}` yields
`tags == []`. -/
theorem C3_sequence_merge :
    (∀ (source dest : Dict) (k : String) (xs : List Val),
      (dictKeys source).Nodup → dictGet source k = some (.list xs) →
      dictGet (deepMergeD source dest) k = some
        (if xs.isEmpty then .list []
         else
           match dictGet dest k with
           | some (.list ys) => Val.list (ys ++ xs)
           | _ => Val.list xs)) ∧
    dictGet (initSpec [[("tags", .list [.str "a"])],
        [("tags", .list [.str "b"])]]) "tags" =
      some (.list [.str "a", .str "b"]) ∧
    dictGet (mergeWith (initSpec [[("tags", .list [.str "a"])],
        [("tags", .list [.str "b"])]]) [("tags", .list [])]) "tags" =
      some (.list []) := by
  refine ⟨?_, ?_, ?_⟩
  · intro source dest k xs hnd h
    rw [dictGet_deepMergeD_mem source dest k _ hnd h, mergedValue_list]
  · simp [initSpec, deepMergeD, mergedValue, dictGet, dictSet]
  · simp [initSpec, mergeWith, deepMergeD, mergedValue, dictGet, dictSet]

/-- C3, witness: the general sequence rule applied at the concrete append
and clear inputs. -/
theorem C3_sequence_merge_witness :
    ((dictKeys [("tags", Val.list [.str "b"])]).Nodup ∧
      dictGet [("tags", Val.list [.str "b"])] "tags" =
        some (.list [.str "b"])) ∧
    dictGet (deepMergeD [("tags", .list [.str "b"])]
        [("tags", .list [.str "a"])]) "tags" =
      some (if (List.isEmpty [Val.str "b"]) then .list []
        else
          match dictGet [("tags", Val.list [.str "a"])] "tags" with
          | some (.list ys) => Val.list (ys ++ [Val.str "b"])
          | _ => Val.list [Val.str "b"]) :=
  ⟨⟨by decide, rfl⟩,
    C3_sequence_merge.1 [("tags", .list [.str "b"])]
      [("tags", .list [.str "a"])] "tags" [.str "b"] (by decide) rfl⟩

/-- C4: constructing the editor from an ordered sequence of fragments
merges them into the accumulator in list order (appending one more fragment
merges it into the accumulated spec), and on a scalar conflict the later
fragment's value wins; in particular `[{info: {version: "1.0"}},
{info: {version: "2.0"}}]` yields `info.version == "2.0"`. -/
theorem C4_fragment_order :
    (∀ (fragments : List Dict) (f : Dict),
      initSpec (fragments ++ [f]) = deepMergeD f (initSpec fragments)) ∧
    (∀ (source dest : Dict) (k : String) (v : Val),
      (dictKeys source).Nodup → dictGet source k = some v → isScalar v →
      dictGet (deepMergeD source dest) k = some v) ∧
    initSpec [[("info", .dict [("version", .str "1.0")])],
        [("info", .dict [("version", .str "2.0")])]] =
      [("info", .dict [("version", .str "2.0")])] := by
  refine ⟨?_, ?_, ?_⟩
  · intro fragments f
    simp [initSpec, List.foldl_append]
  · intro source dest k v hnd h hs
    rw [dictGet_deepMergeD_mem source dest k v hnd h, mergedValue_scalar _ _ hs]
  · simp [initSpec, deepMergeD, mergedValue, dictGet, dictSet]

/-- C4, witness: the scalar rule and the fold rule at the concrete
version-conflict input. -/
theorem C4_fragment_order_witness :
    initSpec ([[("info", Val.dict [("version", Val.str "1.0")])]] ++
        [[("info", Val.dict [("version", Val.str "2.0")])]]) =
      deepMergeD [("info", Val.dict [("version", Val.str "2.0")])]
        (initSpec [[("info", Val.dict [("version", Val.str "1.0")])]]) ∧
    ((dictKeys [("version", Val.str "2.0")]).Nodup ∧
      isScalar (Val.str "2.0") = true ∧
      dictGet (deepMergeD [("version", Val.str "2.0")]
          [("version", Val.str "1.0")]) "version" = some (Val.str "2.0")) :=
  ⟨C4_fragment_order.1 [[("info", .dict [("version", .str "1.0")])]]
      [("info", .dict [("version", .str "2.0")])],
    by decide, rfl,
    C4_fragment_order.2.1 [("version", .str "2.0")] [("version", .str "1.0")]
      "version" (.str "2.0") (by decide) rfl (by decide)⟩

/-- C9: a deep merge never removes a key. At every mapping node the merge
recursion reaches — the top level of the destination, and recursively the
destination value at every key where both sides hold mappings, where the
result is exactly the recursive merge — every key present before the merge
is still present after it; likewise through `merge_with`. -/
theorem C9_merge_preserves_keys :
    (∀ (source dest : Dict) (k : String),
      (dictGet dest k).isSome → (dictGet (deepMergeD source dest) k).isSome) ∧
    (∀ (source dest : Dict) (k : String) (s t : Dict),
      (dictKeys source).Nodup →
      dictGet source k = some (.dict s) → dictGet dest k = some (.dict t) →
      dictGet (deepMergeD source dest) k = some (.dict (deepMergeD s t))) ∧
    (∀ (spec newSpec : Dict) (k : String),
      (dictGet spec k).isSome → (dictGet (mergeWith spec newSpec) k).isSome) := by
  refine ⟨isSome_dictGet_deepMergeD, ?_, ?_⟩
  · intro source dest k s t hnd hs ht
    rw [dictGet_deepMergeD_mem source dest k _ hnd hs, ht, mergedValue_dict]
  · intro spec newSpec k h
    exact isSome_dictGet_deepMergeD newSpec spec k h

/-- C9, witness: both rules at a concrete two-level merge. -/
theorem C9_merge_preserves_keys_witness :
    ((dictGet [("info", Val.dict [("a", Val.str "x")]),
        ("keep", Val.str "k")] "keep").isSome ∧
      (dictGet (deepMergeD [("info", Val.dict [("b", Val.str "y")])]
        [("info", Val.dict [("a", Val.str "x")]),
         ("keep", Val.str "k")]) "keep").isSome) ∧
    ((dictKeys [("info", Val.dict [("b", Val.str "y")])]).Nodup ∧
      dictGet (deepMergeD [("info", Val.dict [("b", Val.str "y")])]
          [("info", Val.dict [("a", Val.str "x")]), ("keep", Val.str "k")])
        "info" =
        some (.dict (deepMergeD [("b", Val.str "y")] [("a", Val.str "x")]))) :=
  ⟨⟨by decide,
      C9_merge_preserves_keys.1 [("info", .dict [("b", .str "y")])]
        [("info", .dict [("a", .str "x")]), ("keep", .str "k")] "keep"
        (by decide)⟩,
    by decide,
    C9_merge_preserves_keys.2.1 [("info", .dict [("b", .str "y")])]
      [("info", .dict [("a", .str "x")]), ("keep", .str "k")] "info"
      [("b", .str "y")] [("a", .str "x")] (by decide) rfl rfl⟩

/-- `String.append` acts on the underlying character lists. -/
theorem strData_append (a b : String) : (a ++ b).data = a.data ++ b.data := rfl

/-- The two diagnostic messages of `get_operation` are never the same
string: one starts with "Path", the other with "Method". -/
theorem pathMsg_ne_methodMsg (p m p' : String) :
    pathNotFoundMsg p ≠ methodNotFoundMsg m p' := by
  intro h
  have hd := congrArg (fun s => s.data.head?) h
  have h2 : some 'P' = some 'M' := hd
  simp at h2

/-- C5: `get_operation` lowercases the method and looks up
`paths[path][method]`; it fails with the operation-not-found `ValueError`
both when the path key is absent (also when `paths` itself is absent) and
when the method key is absent under an existing path, with two distinct
diagnostic messages, and returns the stored operation when both are
present. The concrete conjuncts run each outcome on a spec holding one
patched operation. -/
theorem C5_get_operation :
    (∀ (spec : Dict) (p m : String),
      dictGet spec "paths" = none →
      getOperation spec p m = .error (.valueError (pathNotFoundMsg p))) ∧
    (∀ (spec ps : Dict) (p m : String),
      dictGet spec "paths" = some (.dict ps) → dictGet ps p = none →
      getOperation spec p m = .error (.valueError (pathNotFoundMsg p))) ∧
    (∀ (spec ps ops : Dict) (p m : String),
      dictGet spec "paths" = some (.dict ps) →
      dictGet ps p = some (.dict ops) →
      dictGet ops (strLower m) = none →
      getOperation spec p m =
        .error (.valueError (methodNotFoundMsg (strLower m) p))) ∧
    (∀ (spec ps ops : Dict) (p m : String) (op : Val),
      dictGet spec "paths" = some (.dict ps) →
      dictGet ps p = some (.dict ops) →
      dictGet ops (strLower m) = some op →
      getOperation spec p m = .ok op) ∧
    (∀ p m p', pathNotFoundMsg p ≠ methodNotFoundMsg m p') ∧
    getOperation exNamesSpec "/missing" "get" =
      .error (.valueError (pathNotFoundMsg "/missing")) ∧
    getOperation exNamesSpec "/p" "PATCH" =
      .error (.valueError (methodNotFoundMsg (strLower "PATCH") "/p")) ∧
    getOperation exNamesSpec "/p" "GET" =
      .ok (.dict [("x-function-name", .str "f1")]) := by
  refine ⟨?_, ?_, ?_, ?_, pathMsg_ne_methodMsg, rfl, rfl, rfl⟩
  · intro spec p m h
    simp only [getOperation, h]
  · intro spec ps p m h hp
    simp only [getOperation, h, hp]
  · intro spec ps ops p m h hp hm
    simp only [getOperation, h, hp, hm]
  · intro spec ps ops p m op h hp hm
    simp only [getOperation, h, hp, hm]

/-- C6: `remove_attributes_by_pattern` removes from every mapping exactly
the keys the pattern matches — the dict comprehension equals an
order-preserving filter of the entries followed by recursion into the kept
values — recurses into sequence elements one by one, and builds the new
tree the stored tree is replaced with; matching is the anchored
`re.match`, so for the literal pattern "x-" the key `x-function-name` is
dropped while `functionName` (no leading match) survives, as the concrete
run shows. -/
theorem C6_pattern_removal :
    (∀ (m : String → Bool) (d : List (String × Val)),
      removeMatchingEntries m d =
        (d.filter fun kv => !m kv.1).map fun kv =>
          (kv.1, removeMatching m kv.2)) ∧
    (∀ (m : String → Bool) (xs : List Val),
      removeMatchingItems m xs = xs.map (removeMatching m)) ∧
    matchLit "x-" "x-function-name" = true ∧
    matchLit "x-" "functionName" = false ∧
    removeAttributesByPattern (matchLit "x-")
      [("paths", .dict [("/p", .dict [("get", .dict
          [("x-function-name", .str "f"), ("functionName", .str "g")])])]),
       ("items", .list [.dict [("x-a", .null), ("b", .int 1)]])] =
      [("paths", .dict [("/p", .dict [("get", .dict
          [("functionName", .str "g")])])]),
       ("items", .list [.dict [("b", .int 1)]])] := by
  refine ⟨?_, ?_, by decide, by decide, ?_⟩
  · intro m d
    induction d with
    | nil => simp [removeMatchingEntries]
    | cons hd tl ih =>
        obtain ⟨k, v⟩ := hd
        by_cases h : m k <;>
          simp [removeMatchingEntries, h, ih, List.filter_cons]
  · intro m xs
    induction xs with
    | nil => simp [removeMatchingItems]
    | cons hd tl ih => simp [removeMatchingItems, ih]
  · simp [removeAttributesByPattern, removeMatchingEntries, removeMatching,
      removeMatchingItems, matchLit]

/-- C7, code-bug evidence. First conjunct: `_merge_spec` can never surface
the unsupported-format error, whatever the file system, parsers and input —
its guard sends only `.yaml`/`.yml` names to `_load_openapi_spec`, whose
non-YAML branches are therefore dead code. Second conjunct: the
unsupported-format branch `_load_openapi_spec` does hold fires exactly on
a non-`.yaml`/`.yml`/`.json` name, so the error the claim names exists but
is unreachable through loading. Third conjunct: the failing input — a path
naming an existing file `api.txt` — is instead fed to the YAML parser as
content, which parses the path string as a scalar and then crashes
`_deep_merge` with `AttributeError`. Last conjunct: a malformed text
payload does fail with the parse error. -/
theorem C7_load_failure_modes :
    (∀ (isFile : String → Bool) (parseYaml parseJson : String → Option Val)
        (contents : String → String) (cur : Dict) (spec : String),
      mergeSpecStep isFile parseYaml parseJson contents cur spec ≠
        .error .unsupportedFormat) ∧
    (∀ (parseYaml parseJson : String → Option Val)
        (contents : String → String) (fileName : String),
      strEndsWith fileName ".yaml" = false → strEndsWith fileName ".yml" = false →
      strEndsWith fileName ".json" = false →
      loadOpenapiSpec parseYaml parseJson contents fileName =
        .error .unsupportedFormat) ∧
    mergeSpecStep (fun s => s == "api.txt") (fun s => some (.str s))
      (fun _ => none) (fun _ => "") [] "api.txt" = .error .attributeError ∧
    (fun s => s == "api.txt") "api.txt" = true ∧
    mergeSpecStep (fun _ => false) (fun _ => none) (fun _ => none)
      (fun _ => "") [] "key: [unclosed" = .error .parseError := by
  refine ⟨?_, ?_, rfl, rfl, rfl⟩
  · intro isFile pY pJ c cur spec heq
    simp only [mergeSpecStep] at heq
    by_cases hc : (isFile spec &&
        (strEndsWith spec ".yaml" || strEndsWith spec ".yml")) = true
    · rw [if_pos hc] at heq
      rw [Bool.and_eq_true] at hc
      have hor : (strEndsWith spec ".yaml" || strEndsWith spec ".yml") = true :=
        hc.2
      simp only [loadOpenapiSpec, hor, if_true] at heq
      rcases hpy : pY (c spec) with _ | v <;> rw [hpy] at heq
      · simp at heq
      · cases v <;> simp at heq
    · rw [if_neg hc] at heq
      rcases hpy : pY spec with _ | v <;> rw [hpy] at heq
      · simp at heq
      · cases v <;> simp at heq
  · intro pY pJ c fileName h1 h2 h3
    simp [loadOpenapiSpec, h1, h2, h3]

/-- C8, counterexample. An operation can carry `x-function-name` with the
empty-string value: the attribute is found under `paths.*.*`, yet
`get_function_names` omits it (Python truthiness), so the function does not
return the values of every `x-function-name` found. -/
theorem C8_function_names_cex :
    getFunctionNames exEmptyNameSpec = .ok [] ∧
    opEntriesAt exEmptyNameSpec "/p" "get" =
      some [("x-function-name", .str "")] :=
  ⟨rfl, rfl⟩

/-- Binding a successful `Except` computation applies the continuation. -/
theorem exceptOk_bind {ε α β : Type} (a : α) (f : α → Except ε β) :
    (Except.ok a : Except ε α) >>= f = f a := rfl

/-- On a level whose entries all hold mappings, `collectXfn` succeeds with
an order-preserving `filterMap` of the truthy `x-function-name` values. -/
theorem collectXfn_eq (d : Dict) (h : opsShaped d = true) :
    collectXfn d = .ok (d.filterMap fun kv =>
      match kv.2 with
      | .dict oe => xfnTruthy oe
      | _ => none) := by
  induction d with
  | nil => rfl
  | cons hd tl ih =>
      obtain ⟨k, node⟩ := hd
      simp only [opsShaped, List.all_cons, Bool.and_eq_true] at h
      obtain ⟨hnode, htl⟩ := h
      cases node
      case dict oe =>
        have ih' := ih (by simpa [opsShaped] using htl)
        simp only [collectXfn, ih', List.filterMap_cons, xfnTruthy]
        by_cases ht : truthy ((dictGet oe "x-function-name").getD .null) <;>
          simp [ht]
      all_goals simp [isDict] at hnode

/-- On a `paths` section of the data model's shape, `pathsXfn` succeeds
with the per-path collections flattened in order. -/
theorem pathsXfn_eq (ps : Dict) (h : pathsShaped ps = true) :
    pathsXfn ps = .ok (ps.flatMap fun pkv =>
      match pkv.2 with
      | .dict ms => ms.filterMap fun okv =>
          match okv.2 with
          | .dict oe => xfnTruthy oe
          | _ => none
      | _ => []) := by
  induction ps with
  | nil => rfl
  | cons hd tl ih =>
      obtain ⟨k, methods⟩ := hd
      simp only [pathsShaped, List.all_cons, Bool.and_eq_true] at h
      obtain ⟨hm, htl⟩ := h
      cases methods
      case dict ms =>
        have ih' := ih (by simpa [pathsShaped] using htl)
        simp only [pathsXfn, collectXfn_eq ms hm, ih', List.flatMap_cons]
      all_goals simp at hm

/-- C8 (amended): on every spec tree of the data model's shape — mappings
at `paths`, its path entries, their operations, `components`,
`securitySchemes` and its schemes — `get_function_names` returns exactly
the present-and-truthy `x-function-name` values of the operations under
`paths.*.*`, in traversal order, followed by those of the schemes under
`components.securitySchemes.*`, omitting operations and schemes whose
`x-function-name` is absent or falsy (null, empty string). Outside that
shape the embedding is not weaker than the program: on a spec whose
`paths` mapping holds a non-mapping path value, `get_function_names`
raises the `AttributeError` Python raises, as the last conjunct runs. -/
theorem C8_function_names :
    (∀ (spec ps cs ss : Dict),
      dictGet spec "paths" = some (.dict ps) →
      dictGet spec "components" = some (.dict cs) →
      dictGet cs "securitySchemes" = some (.dict ss) →
      pathsShaped ps = true → opsShaped ss = true →
      getFunctionNames spec = .ok
        ((ps.flatMap fun pkv =>
          match pkv.2 with
          | .dict ms => ms.filterMap fun okv =>
              match okv.2 with
              | .dict oe => xfnTruthy oe
              | _ => none
          | _ => []) ++
        ss.filterMap fun skv =>
          match skv.2 with
          | .dict se => xfnTruthy se
          | _ => none)) ∧
    getFunctionNames exCrashSpec = .error .typeError := by
  refine ⟨?_, rfl⟩
  intro spec ps cs ss h1 h2 h3 h4 h6
  have hpart1 : getSpecPart spec ["paths"] = .ok (some (.dict ps)) := by
    simp [getSpecPart, getOrCreateWalk, h1]
  have hpart2 : getSpecPart spec ["components", "securitySchemes"] =
      .ok (some (.dict ss)) := by
    simp [getSpecPart, getOrCreateWalk, h2, h3]
  have hifp : (if truthy (Val.dict ps) then pathsXfn ps
      else (.ok [] : Except WalkErr (List Val))) =
      .ok (ps.flatMap fun pkv =>
        match pkv.2 with
        | .dict ms => ms.filterMap fun okv =>
            match okv.2 with
            | .dict oe => xfnTruthy oe
            | _ => none
        | _ => []) := by
    cases ps with
    | nil => simp [truthy]
    | cons hd tl => simpa [truthy] using pathsXfn_eq (hd :: tl) h4
  have hifs : (if truthy (Val.dict ss) then collectXfn ss
      else (.ok [] : Except WalkErr (List Val))) =
      .ok (ss.filterMap fun skv =>
        match skv.2 with
        | .dict se => xfnTruthy se
        | _ => none) := by
    cases ss with
    | nil => simp [truthy]
    | cons hd tl => simpa [truthy] using collectXfn_eq (hd :: tl) h6
  simp only [getFunctionNames, hpart1, hpart2, exceptOk_bind, hifp, hifs]

/-- C8, witness: the amended characterization at a spec carrying one
integration patch and one authorizer patch, the shape hypotheses
discharged by computation. -/
theorem C8_function_names_witness :
    dictGet exNamesSpec "paths" =
      some (.dict [("/p", .dict
        [("get", .dict [("x-function-name", .str "f1")]),
         ("post", .dict [])])]) ∧
    pathsShaped [("/p", .dict
        [("get", .dict [("x-function-name", .str "f1")]),
         ("post", .dict [])])] = true ∧
    getFunctionNames exNamesSpec = .ok
      ((([("/p", Val.dict
          [("get", Val.dict [("x-function-name", Val.str "f1")]),
           ("post", Val.dict [])])] : Dict).flatMap fun pkv =>
        match pkv.2 with
        | .dict ms => ms.filterMap fun okv =>
            match okv.2 with
            | .dict oe => xfnTruthy oe
            | _ => none
        | _ => []) ++
      ([("auth", Val.dict [("x-function-name", Val.str "f2")])] :
          Dict).filterMap fun skv =>
        match skv.2 with
        | .dict se => xfnTruthy se
        | _ => none) :=
  ⟨rfl, by decide,
    C8_function_names.1 exNamesSpec
      [("/p", .dict [("get", .dict [("x-function-name", .str "f1")]),
        ("post", .dict [])])]
      [("securitySchemes", .dict [("auth", .dict
        [("x-function-name", .str "f2")])])]
      [("auth", .dict [("x-function-name", .str "f2")])]
      rfl rfl rfl (by decide) (by decide)⟩

/-- C10: with `create = True`, `get_or_create_spec_part` creates a node
only for a key entirely absent from the current mapping; a traversed key
bound to null still fails with the missing-part `KeyError` (no empty
mapping replaces the null), exactly as with `create = False`, while a
truly absent key is created. The concrete conjuncts walk `["a", "b"]`
over `{"a": null}`. -/
theorem C10_create_null_part :
    (∀ (d : Dict) (k : String) (rest allKeys : List String),
      dictGet d k = some .null →
      getOrCreateWalk true allKeys (.dict d) (k :: rest) =
        .error (.keyError (partMsg allKeys))) ∧
    (∀ (d : Dict) (k : String) (allKeys : List String),
      (dictGet d k).isNone →
      getOrCreateWalk true allKeys (.dict d) [k] =
        .ok (.dict (dictSet d k (.dict [])), .dict [])) ∧
    getOrCreateSpecPart [("a", .null)] ["a", "b"] true =
      .error (.keyError (partMsg ["a", "b"])) ∧
    getOrCreateSpecPart [("a", .null)] ["a", "b"] false =
      .error (.keyError (partMsg ["a", "b"])) ∧
    getOrCreateSpecPart [("c", .str "v")] ["a"] true =
      .ok (.dict [("c", .str "v"), ("a", .dict [])], .dict []) := by
  refine ⟨?_, ?_, rfl, rfl, rfl⟩
  · intro d k rest allKeys h
    simp [getOrCreateWalk, h]
  · intro d k allKeys h
    simp [getOrCreateWalk, h, dictGet_dictSet_self, dictSet_dictSet_same,
      getOrCreateWalk]

end CloudFoundry
